import Mathlib

/-!
Shallow embedding of the Austrian-companies Apify actor (src/main.js).

External effects are modelled as oracles: an HTTP fetch combined with
cheerio text extraction becomes a function from a URL to an optional page
text (a thrown error on fetch or parse is the value none), and the two
JavaScript regular-expression matchers become functions from a page text
to the list of matched strings. All other code in the actor is pure and
is translated directly.
-/

namespace ScrapingAgent

/-- Result record of scrapContactPages (src/main.js lines 128-134). -/
structure ContactInfo where
  emails : List String
  phones : List String
  address : String
  imprint_url : String
  deriving Repr, DecidableEq

/-- Result record of scrapeTenderData (src/main.js lines 183-189).
The element type of the tenders array never appears in the source, so it
is fixed to String here; the array is always empty. -/
structure TenderData where
  open_count : Nat
  closed_count : Nat
  tenders : List String
  last_tender_date : Option String
  deriving Repr, DecidableEq

/-- A company record as produced by getSeedCompaniesAustria
(src/main.js lines 211-244). website_url is optional because a JavaScript
object may lack the field; a missing field and an empty string are both
falsy. -/
structure Company where
  rank : Nat
  company_name : String
  industry : String
  hq_city : String
  metric_type : String
  metric_value : Nat
  website_url : Option String := none
  deriving Repr, DecidableEq

/-- A company record after the enrichment passes of Apify.main. The
fields added by enrichCompanyContact and by Task C are optional: none
models a field that is absent from the JavaScript object. -/
structure EnrichedCompany where
  rank : Nat
  company_name : String
  industry : String
  hq_city : String
  metric_type : String
  metric_value : Nat
  website_url : Option String := none
  emails : Option (List String) := none
  phones : Option (List String) := none
  address : Option String := none
  imprint_url : Option String := none
  tender_data : Option TenderData := none
  deriving Repr, DecidableEq

/-- JavaScript truthiness of an optional string field: undefined and the
empty string are falsy. -/
def jsFalsyStr : Option String → Bool
  | none => true
  | some s => s = ""

/-- Oracle environment for the external libraries used by the scraper:
fetch models axios.get followed by cheerio.load and text extraction
(none when the request or the parse throws); matchEmails and matchPhones
model text.match on the two regular expressions of src/main.js lines
158 and 163, returning the list of matches (empty when match is null). -/
structure Env where
  fetch : String → Option String
  matchEmails : String → List String
  matchPhones : String → List String

/-- The fixed candidate paths of scrapContactPages
(src/main.js lines 136-144). -/
def pagesToScrape : List String :=
  ["/", "/contact", "/kontakt", "/impressum", "/imprint", "/about", "/ubersicht"]

/-- Does pat occur at the head of s (character-list view)? -/
def leadMatch : List Char → List Char → Bool
  | [], _ => true
  | _ :: _, [] => false
  | p :: ps, c :: cs => p = c && leadMatch ps cs

/-- Does pat occur anywhere in s (character-list view)? -/
def subMatch (pat : List Char) : List Char → Bool
  | [] => leadMatch pat []
  | c :: cs => leadMatch pat (c :: cs) || subMatch pat cs

/-- JavaScript String.prototype.includes: does s contain pat? -/
def strContains (s pat : String) : Bool :=
  subMatch pat.data s.data

/-- Initial contactInfo accumulator (src/main.js lines 129-134). -/
def initContact : ContactInfo :=
  { emails := [], phones := [], address := "", imprint_url := "" }

/-- One iteration of the for-loop of scrapContactPages
(src/main.js lines 146-174), instrumented with the list of URLs passed to
axios.get so far. The URL is recorded unconditionally because axios.get is
called on every path; when the fetch or the parse throws (fetch = none)
the catch block does nothing and the accumulated contact info is kept. -/
def scrapStep (env : Env) (websiteUrl : String)
    (st : ContactInfo × List String) (path : String) : ContactInfo × List String :=
  let fullUrl := websiteUrl ++ path
  match env.fetch fullUrl with
  | none => (st.1, st.2 ++ [fullUrl])
  | some text =>
      ({ st.1 with
          emails := st.1.emails ++ env.matchEmails text
          phones := st.1.phones ++ env.matchPhones text
          imprint_url :=
            if strContains path "imprint" || strContains path "impressum" then fullUrl
            else st.1.imprint_url },
        st.2 ++ [fullUrl])

/-- The full loop of scrapContactPages over all candidate paths, with the
recorded request trace. -/
def scrapResult (env : Env) (websiteUrl : String) : ContactInfo × List String :=
  pagesToScrape.foldl (scrapStep env websiteUrl) (initContact, [])

/-- The list of URLs requested by one call of scrapContactPages. -/
def attemptedUrls (env : Env) (websiteUrl : String) : List String :=
  (scrapResult env websiteUrl).2

/-- Insertion-order deduplication with an accumulator of already seen
strings: the semantics of building a JavaScript Set from a list and
spreading it back into an array (src/main.js lines 177-178). -/
def dedupAux (seen : List String) : List String → List String
  | [] => []
  | x :: xs => if x ∈ seen then dedupAux seen xs else x :: dedupAux (x :: seen) xs

/-- new Set(l) spread back to an array: keeps the first occurrence of
every string, in order. -/
def dedupFirst (l : List String) : List String :=
  dedupAux [] l

/-- scrapContactPages (src/main.js lines 128-181): run the loop over the
seven candidate paths, then deduplicate emails and phones. -/
def scrapContactPages (env : Env) (websiteUrl : String) : ContactInfo :=
  let acc := (scrapResult env websiteUrl).1
  { acc with emails := dedupFirst acc.emails, phones := dedupFirst acc.phones }

/-- The emails accumulated (before deduplication) across the successfully
fetched candidate pages, in page order then match order. -/
def collectedEmails (env : Env) (websiteUrl : String) : List String :=
  pagesToScrape.foldl
    (fun acc p =>
      match env.fetch (websiteUrl ++ p) with
      | none => acc
      | some text => acc ++ env.matchEmails text) []

/-- The phone numbers accumulated (before deduplication) across the
successfully fetched candidate pages. -/
def collectedPhones (env : Env) (websiteUrl : String) : List String :=
  pagesToScrape.foldl
    (fun acc p =>
      match env.fetch (websiteUrl ++ p) with
      | none => acc
      | some text => acc ++ env.matchPhones text) []

/-- resolveWebsite (src/main.js lines 118-126): a stub returning the
empty string for every company name. -/
def resolveWebsite (_companyName : String) : String := ""

/-- The zero tender record: both the value the scrapeTenderData stub
returns (src/main.js lines 184-189) and the value the Task C catch block
stores (src/main.js line 57; there the last_tender_date field is absent,
modelled by none just as the stub's explicit null is). -/
def zeroTenderData : TenderData :=
  { open_count := 0, closed_count := 0, tenders := [], last_tender_date := none }

/-- scrapeTenderData (src/main.js lines 183-209): a stub returning the
hard-coded zero record for every company and every lookback value. -/
def scrapeTenderData (_company : EnrichedCompany) (_lookbackMonths : Nat) : TenderData :=
  zeroTenderData

/-- getSeedCompaniesAustria (src/main.js lines 211-244): the three
hard-coded seed companies. -/
def getSeedCompaniesAustria : List Company :=
  [ { rank := 1, company_name := "OMV Aktiengesellschaft", industry := "Energy",
      hq_city := "Vienna", metric_type := "revenue", metric_value := 62500000000,
      website_url := some "https://www.omv.com" },
    { rank := 2, company_name := "Voestalpine AG", industry := "Steel & Materials",
      hq_city := "Linz", metric_type := "revenue", metric_value := 16200000000,
      website_url := some "https://www.voestalpine.com" },
    { rank := 3, company_name := "Erste Group Bank AG", industry := "Finance",
      hq_city := "Vienna", metric_type := "revenue", metric_value := 14600000000,
      website_url := some "https://www.erstegroup.com" } ]

/-- scrapeTopCompanies (src/main.js lines 80-98): returns
seedData.slice(0, limit); the strategy argument only reaches a log line.
The body is pure, so the catch branch returning [] is unreachable. -/
def scrapeTopCompanies (_strategy : String) (limit : Nat) : List Company :=
  getSeedCompaniesAustria.take limit

/-- enrichCompanyContact (src/main.js lines 100-116): copy the company,
fill website_url from resolveWebsite when it is falsy, and when the
resulting website_url is truthy scrape the contact pages and add the
emails, phones, address and imprint_url fields. contactInfo.emails and
contactInfo.phones are always arrays and contactInfo.address and
contactInfo.imprint_url always strings, so the JavaScript fallbacks
(x || [] and x || two quotes) are the identity here. -/
def enrichCompanyContact (env : Env) (company : Company) : EnrichedCompany :=
  let w1 : Option String :=
    if jsFalsyStr company.website_url then some (resolveWebsite company.company_name)
    else company.website_url
  let base : EnrichedCompany :=
    { rank := company.rank, company_name := company.company_name,
      industry := company.industry, hq_city := company.hq_city,
      metric_type := company.metric_type, metric_value := company.metric_value,
      website_url := w1 }
  if jsFalsyStr w1 then base
  else
    let ci := scrapContactPages env (w1.getD "")
    { base with
      emails := some ci.emails
      phones := some ci.phones
      address := some ci.address
      imprint_url := some ci.imprint_url }

/-- Task B of Apify.main (src/main.js lines 32-44): per company, try the
enrichment and push the result; a company whose enrichment throws
(oracle value none) is only logged and never pushed. Because each
queue.add is awaited inside the loop, tasks complete in company order,
so the array order is the input order. -/
def taskB (enrich : Company → Option EnrichedCompany)
    (companies : List Company) : List EnrichedCompany :=
  companies.foldl
    (fun acc c =>
      match enrich c with
      | some e => acc ++ [e]
      | none => acc) []

/-- Task C of Apify.main (src/main.js lines 49-60): per enriched company,
try the tender lookup and store it in tender_data; when the task throws
(oracle value none) the catch block stores the zero record (whose
last_tender_date field is absent, modelled as none). -/
def taskC (tender : EnrichedCompany → Option TenderData)
    (enriched : List EnrichedCompany) : List EnrichedCompany :=
  enriched.map fun c =>
    match tender c with
    | some td => { c with tender_data := some td }
    | none => { c with tender_data := some zeroTenderData }

/-- The actor input (src/main.js lines 9-15 and the documented schema):
the destructured fields plus the two documented fields extract_emails and
extract_phones that main never reads. -/
structure Input where
  ranking_strategy : String
  top_n : Nat
  include_tenders : Bool
  tender_lookback_months : Nat
  max_concurrent_requests : Nat
  extract_emails : Bool
  extract_phones : Bool
  deriving Repr, DecidableEq

/-- The company records computed by Apify.main (src/main.js lines 24-71)
before the dataset push adds the scraped_at timestamp: Task A takes the
seed slice, Task B enriches every company (the embedded enrichment is
total, so no task throws), and Task C fills tender_data when
include_tenders is set. -/
def mainRecords (env : Env) (input : Input) : List EnrichedCompany :=
  let companies := scrapeTopCompanies input.ranking_strategy input.top_n
  let enriched := taskB (fun c => some (enrichCompanyContact env c)) companies
  if input.include_tenders then
    taskC (fun c => some (scrapeTenderData c input.tender_lookback_months)) enriched
  else enriched

/-! Queue scheduling model. Apify.main routes every per-company task of
Task B and Task C through the single PQueue created with
concurrency = max_concurrent_requests (src/main.js line 21) and awaits
queue.onIdle() after each pass (lines 44 and 61). The queue is modelled
by its documented contract as a transition system: a state counts the
running and the pending tasks; enqueueing adds a pending task; the queue
may start a pending task only while fewer than concurrency tasks run;
onIdle is passable only in the idle state. -/

/-- Scheduler operation issued by Apify.main: enqueue one per-company
task (queue.add) or wait for the queue to drain (queue.onIdle). -/
inductive SchedOp
  | enqueueTask
  | awaitIdle
  deriving Repr, DecidableEq

/-- Queue state: the number of running tasks and of pending tasks. -/
structure QState where
  running : Nat
  pending : Nat
  deriving Repr, DecidableEq

/-- Internal queue transitions: start a pending task (only below the
concurrency bound) or finish a running task. -/
inductive QInternal (conc : Nat) : QState → QState → Prop
  | start (r p : Nat) : r < conc → QInternal conc ⟨r, p + 1⟩ ⟨r + 1, p⟩
  | finish (r p : Nat) : QInternal conc ⟨r + 1, p⟩ ⟨r, p⟩

/-- An execution of a list of scheduler operations interleaved with
internal queue transitions, recording every traversed state. awaitIdle is
only consumed in the idle state. -/
inductive ExecT (conc : Nat) : QState → List SchedOp → List QState → QState → Prop
  | done (s : QState) : ExecT conc s [] [s] s
  | internal (s s' : QState) (ops : List SchedOp) (sts : List QState) (final : QState) :
      QInternal conc s s' → ExecT conc s' ops sts final →
      ExecT conc s ops (s :: sts) final
  | enq (r p : Nat) (ops : List SchedOp) (sts : List QState) (final : QState) :
      ExecT conc ⟨r, p + 1⟩ ops sts final →
      ExecT conc ⟨r, p⟩ (SchedOp.enqueueTask :: ops) (⟨r, p⟩ :: sts) final
  | idle (ops : List SchedOp) (sts : List QState) (final : QState) :
      ExecT conc ⟨0, 0⟩ ops sts final →
      ExecT conc ⟨0, 0⟩ (SchedOp.awaitIdle :: ops) (⟨0, 0⟩ :: sts) final

/-- The scheduler operations issued by Apify.main (src/main.js lines
32-62): one enqueue per company in Task B, then onIdle, then (when
include_tenders is set) one enqueue per enriched company in Task C
followed by onIdle. -/
def mainSchedule (include_tenders : Bool) (companies : List Company)
    (enriched : List EnrichedCompany) : List SchedOp :=
  companies.map (fun _ => SchedOp.enqueueTask) ++ [SchedOp.awaitIdle]
    ++ (if include_tenders then
          enriched.map (fun _ => SchedOp.enqueueTask) ++ [SchedOp.awaitIdle]
        else [])

/-- Sample oracle environment in which every fetch throws. -/
def envNone : Env :=
  { fetch := fun _ => none, matchEmails := fun _ => [], matchPhones := fun _ => [] }

/-- The first seed company, used as a concrete sample input. -/
def omv : Company :=
  { rank := 1, company_name := "OMV Aktiengesellschaft", industry := "Energy",
    hq_city := "Vienna", metric_type := "revenue", metric_value := 62500000000,
    website_url := some "https://www.omv.com" }

/-- A concrete enriched company, used as a sample input. -/
def sampleEnriched : EnrichedCompany := enrichCompanyContact envNone omv

/-- Sample inputs differing only in tender_lookback_months,
extract_emails and extract_phones. -/
def inputA : Input :=
  { ranking_strategy := "revenue", top_n := 100, include_tenders := true,
    tender_lookback_months := 12, max_concurrent_requests := 5,
    extract_emails := true, extract_phones := true }

/-- Second sample input for the independence check. -/
def inputB : Input :=
  { ranking_strategy := "revenue", top_n := 100, include_tenders := true,
    tender_lookback_months := 36, max_concurrent_requests := 5,
    extract_emails := false, extract_phones := false }

/-! Helper lemmas about the scraping loop. -/

/-- One loop iteration records exactly one axios.get call, on
websiteUrl ++ path, whether or not the fetch succeeds. -/
lemma scrapStep_snd (env : Env) (u : String) (st : ContactInfo × List String)
    (p : String) : (scrapStep env u st p).2 = st.2 ++ [u ++ p] := by
  cases h : env.fetch (u ++ p) <;> simp [scrapStep, h]

/-- The loop over any path list records exactly one request per path, in
path order. -/
lemma foldl_scrapStep_snd (env : Env) (u : String) (paths : List String) :
    ∀ st : ContactInfo × List String,
      (paths.foldl (scrapStep env u) st).2 = st.2 ++ paths.map (fun p => u ++ p) := by
  induction paths with
  | nil => intro st; simp
  | cons p ps ih =>
      intro st
      rw [List.foldl_cons, ih, scrapStep_snd]
      simp

/-- The URLs requested by scrapContactPages are the candidate paths each
appended to the website URL. -/
lemma attemptedUrls_eq (env : Env) (u : String) :
    attemptedUrls env u = pagesToScrape.map (fun p => u ++ p) := by
  unfold attemptedUrls scrapResult
  rw [foldl_scrapStep_snd]
  rfl

/-- The emails accumulated by the loop are the matches of the
successfully fetched pages, in order. -/
lemma foldl_scrapStep_emails (env : Env) (u : String) (paths : List String) :
    ∀ st : ContactInfo × List String,
      (paths.foldl (scrapStep env u) st).1.emails
        = paths.foldl
            (fun acc p =>
              match env.fetch (u ++ p) with
              | none => acc
              | some text => acc ++ env.matchEmails text) st.1.emails := by
  induction paths with
  | nil => intro st; rfl
  | cons p ps ih =>
      intro st
      rw [List.foldl_cons, List.foldl_cons, ih]
      cases h : env.fetch (u ++ p) <;> simp [scrapStep, h]

/-- The phone numbers accumulated by the loop are the matches of the
successfully fetched pages, in order. -/
lemma foldl_scrapStep_phones (env : Env) (u : String) (paths : List String) :
    ∀ st : ContactInfo × List String,
      (paths.foldl (scrapStep env u) st).1.phones
        = paths.foldl
            (fun acc p =>
              match env.fetch (u ++ p) with
              | none => acc
              | some text => acc ++ env.matchPhones text) st.1.phones := by
  induction paths with
  | nil => intro st; rfl
  | cons p ps ih =>
      intro st
      rw [List.foldl_cons, List.foldl_cons, ih]
      cases h : env.fetch (u ++ p) <;> simp [scrapStep, h]

/-- C1: scrapContactPages tolerates per-page failure: when the fetch or
parse of one candidate path throws, the loop continues with every
remaining path, keeping all contact data collected so far unchanged (it
only records the attempted URL). The embedded scrapContactPages is a
total function into ContactInfo, so it never throws and always yields
the emails, phones, address and imprint_url fields. -/
theorem scrap_tolerates_page_failure (env : Env) (u : String)
    (st : ContactInfo × List String) (p : String) (rest : List String)
    (h : env.fetch (u ++ p) = none) :
    List.foldl (scrapStep env u) st (p :: rest)
      = List.foldl (scrapStep env u) (st.1, st.2 ++ [u ++ p]) rest := by
  rw [List.foldl_cons]
  congr 1
  simp [scrapStep, h]

/-- Witness for C1: with an environment where every fetch throws, the
failure of the first candidate path leaves the accumulated contact info
untouched while the loop proceeds to the remaining path. -/
theorem scrap_tolerates_page_failure_witness :
    List.foldl (scrapStep envNone "https://a.example") (initContact, [])
        ("/" :: ["/contact"])
      = List.foldl (scrapStep envNone "https://a.example")
          ((initContact, ([] : List String)).1,
            (initContact, ([] : List String)).2 ++ ["https://a.example" ++ "/"])
          ["/contact"] :=
  scrap_tolerates_page_failure envNone "https://a.example" (initContact, []) "/"
    ["/contact"] rfl

/-- C2: scrapContactPages requests exactly the seven fixed candidate
paths, in order, each appended directly to the website URL, and no other
URL. -/
theorem scrap_attempts_exactly_seven (env : Env) (u : String) :
    attemptedUrls env u = pagesToScrape.map (fun p => u ++ p) ∧
    pagesToScrape
      = ["/", "/contact", "/kontakt", "/impressum", "/imprint", "/about",
         "/ubersicht"] :=
  ⟨attemptedUrls_eq env u, rfl⟩

/-! Helper lemmas about Set-style deduplication. -/

/-- Every string emitted by dedupAux is outside the seen accumulator. -/
lemma dedupAux_mem_not_seen :
    ∀ (xs seen : List String) (y : String), y ∈ dedupAux seen xs → y ∉ seen := by
  intro xs
  induction xs with
  | nil => intro seen y h; simp [dedupAux] at h
  | cons x xs ih =>
      intro seen y h
      by_cases hx : x ∈ seen
      · rw [dedupAux, if_pos hx] at h
        exact ih seen y h
      · rw [dedupAux, if_neg hx] at h
        rcases List.mem_cons.mp h with rfl | h2
        · exact hx
        · intro hy
          exact ih (x :: seen) y h2 (List.mem_cons_of_mem x hy)

/-- dedupAux emits no duplicates. -/
lemma dedupAux_nodup : ∀ (xs seen : List String), (dedupAux seen xs).Nodup := by
  intro xs
  induction xs with
  | nil => intro seen; simp [dedupAux]
  | cons x xs ih =>
      intro seen
      by_cases hx : x ∈ seen
      · rw [dedupAux, if_pos hx]
        exact ih seen
      · rw [dedupAux, if_neg hx]
        refine List.nodup_cons.mpr ⟨?_, ih (x :: seen)⟩
        intro hmem
        exact dedupAux_mem_not_seen xs (x :: seen) x hmem (List.mem_cons_self x seen)

/-- dedupAux only looks at the seen accumulator through membership. -/
lemma dedupAux_congr :
    ∀ (xs s₁ s₂ : List String), (∀ y, y ∈ s₁ ↔ y ∈ s₂) →
      dedupAux s₁ xs = dedupAux s₂ xs := by
  intro xs
  induction xs with
  | nil => intro s₁ s₂ _; rfl
  | cons x xs ih =>
      intro s₁ s₂ h
      by_cases hx : x ∈ s₁
      · rw [dedupAux, if_pos hx, dedupAux, if_pos ((h x).mp hx)]
        exact ih s₁ s₂ h
      · have hx2 : x ∉ s₂ := fun c => hx ((h x).mpr c)
        rw [dedupAux, if_neg hx, dedupAux, if_neg hx2]
        congr 1
        refine ih (x :: s₁) (x :: s₂) ?_
        intro y
        simp [List.mem_cons, h y]

/-- Marking a string as seen is the same as filtering its occurrences
out of the input. -/
lemma dedupAux_cons_seen :
    ∀ (xs seen : List String) (a : String),
      dedupAux (a :: seen) xs = dedupAux seen (xs.filter (fun y => y != a)) := by
  intro xs
  induction xs with
  | nil => intro seen a; rfl
  | cons x xs ih =>
      intro seen a
      by_cases hxa : x = a
      · subst hxa
        rw [dedupAux, if_pos (List.mem_cons_self x seen)]
        have hf : (x :: xs).filter (fun y => y != x) = xs.filter (fun y => y != x) := by
          simp [List.filter]
        rw [hf]
        exact ih seen x
      · have hxab : (x != a) = true := by simp [hxa]
        have hf : (x :: xs).filter (fun y => y != a)
            = x :: xs.filter (fun y => y != a) := by
          simp [List.filter, hxab]
        by_cases hxs : x ∈ seen
        · rw [dedupAux, if_pos (List.mem_cons_of_mem a hxs), hf, dedupAux,
            if_pos hxs]
          exact ih seen a
        · have hnot : x ∉ a :: seen := by
            simp [List.mem_cons, hxa, hxs]
          rw [dedupAux, if_neg hnot, hf, dedupAux, if_neg hxs]
          congr 1
          calc dedupAux (x :: a :: seen) xs
              = dedupAux (a :: x :: seen) xs := by
                refine dedupAux_congr xs _ _ ?_
                intro y
                simp [List.mem_cons]
                tauto
            _ = dedupAux (x :: seen) (xs.filter (fun y => y != a)) := ih (x :: seen) a

/-- Deduplication keeps the first occurrence of each string and removes
all its later repetitions. -/
lemma dedupFirst_cons (x : String) (xs : List String) :
    dedupFirst (x :: xs) = x :: dedupFirst (xs.filter (fun y => y != x)) := by
  unfold dedupFirst
  rw [dedupAux, if_neg (List.not_mem_nil x)]
  congr 1
  exact dedupAux_cons_seen xs [] x

/-- The emails field of the result is the deduplication of the
accumulated matches. -/
lemma scrap_emails_eq (env : Env) (u : String) :
    (scrapContactPages env u).emails = dedupFirst (collectedEmails env u) := by
  unfold scrapContactPages scrapResult collectedEmails
  dsimp only
  rw [foldl_scrapStep_emails]
  rfl

/-- The phones field of the result is the deduplication of the
accumulated matches. -/
lemma scrap_phones_eq (env : Env) (u : String) :
    (scrapContactPages env u).phones = dedupFirst (collectedPhones env u) := by
  unfold scrapContactPages scrapResult collectedPhones
  dsimp only
  rw [foldl_scrapStep_phones]
  rfl

/-- C3: the emails and phones lists of scrapContactPages are exactly the
match sequences accumulated across the successfully fetched pages with
every repeated string removed, keeping only the first occurrence in
accumulation order; in particular both lists are duplicate-free. -/
theorem scrap_dedup (env : Env) (u : String) :
    (scrapContactPages env u).emails = dedupFirst (collectedEmails env u) ∧
    (scrapContactPages env u).phones = dedupFirst (collectedPhones env u) ∧
    (scrapContactPages env u).emails.Nodup ∧
    (scrapContactPages env u).phones.Nodup ∧
    (∀ (x : String) (xs : List String),
      dedupFirst (x :: xs) = x :: dedupFirst (xs.filter (fun y => y != x))) := by
  refine ⟨scrap_emails_eq env u, scrap_phones_eq env u, ?_, ?_, dedupFirst_cons⟩
  · rw [scrap_emails_eq]
    exact dedupAux_nodup _ _
  · rw [scrap_phones_eq]
    exact dedupAux_nodup _ _

/-- C4: the website resolver and the tender source are stubs:
resolveWebsite returns the empty string for every company name, and
scrapeTenderData returns the hard-coded zero record with an empty tender
list and a null last_tender_date for every company and every lookback
value. -/
theorem stubs_return_constants :
    (∀ name : String, resolveWebsite name = "") ∧
    (∀ (c : EnrichedCompany) (m : Nat),
      scrapeTenderData c m
        = { open_count := 0, closed_count := 0, tenders := [],
            last_tender_date := none }) :=
  ⟨fun _ => rfl, fun _ _ => rfl⟩

/-- Taking limit elements of the three-element seed list is the same as
taking min limit 3 of it. -/
lemma seed_take_min (limit : Nat) :
    getSeedCompaniesAustria.take limit
      = getSeedCompaniesAustria.take (min limit 3) := by
  match limit with
  | 0 => rfl
  | 1 => rfl
  | 2 => rfl
  | n + 3 =>
      have h3 : min (n + 3) 3 = 3 := by omega
      rw [h3]
      simp [getSeedCompaniesAustria]

/-- C5: scrapeTopCompanies returns the first min(limit, 3) entries of the
hard-coded seed list in seed order, independently of the strategy string,
and (its body being pure) its catch branch never runs, so it never
throws. -/
theorem scrapeTopCompanies_takes_seed (strategy strategy₂ : String) (limit : Nat) :
    scrapeTopCompanies strategy limit
      = getSeedCompaniesAustria.take (min limit 3) ∧
    scrapeTopCompanies strategy limit = scrapeTopCompanies strategy₂ limit ∧
    getSeedCompaniesAustria.length = 3 :=
  ⟨seed_take_min limit, rfl, rfl⟩

/-- Appending to a fixed string on the left is injective. -/
lemma string_append_left_inj (u : String) :
    ∀ p q : String, u ++ p = u ++ q → p = q := by
  intro p q h
  have hd : u.data ++ p.data = u.data ++ q.data := by
    have := congrArg String.data h
    simpa [String.data_append] using this
  have hpq : p.data = q.data := List.append_cancel_left hd
  cases p
  cases q
  exact congrArg String.mk hpq

/-- C6: no retry logic: within one call of scrapContactPages every
candidate URL is requested at most once (the request list has no
duplicates), despite the repository documentation claiming retry with
exponential backoff. -/
theorem no_retry_each_url_at_most_once (env : Env) (u : String) (url : String) :
    (attemptedUrls env u).count url ≤ 1 ∧ (attemptedUrls env u).Nodup := by
  have hnd : (attemptedUrls env u).Nodup := by
    rw [attemptedUrls_eq]
    refine List.Nodup.map ?_ ?_
    · intro p q hpq
      exact string_append_left_inj u p q hpq
    · decide
  exact ⟨List.nodup_iff_count_le_one.mp hnd url, hnd⟩

/-- The Task B fold with any starting accumulator appends the
successfully enriched companies in input order. -/
lemma taskB_foldl (enrich : Company → Option EnrichedCompany) :
    ∀ (companies : List Company) (acc : List EnrichedCompany),
      companies.foldl
          (fun acc c =>
            match enrich c with
            | some e => acc ++ [e]
            | none => acc) acc
        = acc ++ companies.filterMap enrich := by
  intro companies
  induction companies with
  | nil => intro acc; simp
  | cons c cs ih =>
      intro acc
      rw [List.foldl_cons]
      cases h : enrich c <;> simp [h, ih, List.filterMap_cons]

/-- Task B keeps exactly the companies whose enrichment succeeds, in
input order. -/
lemma taskB_eq_filterMap (enrich : Company → Option EnrichedCompany)
    (companies : List Company) :
    taskB enrich companies = companies.filterMap enrich := by
  unfold taskB
  rw [taskB_foldl]
  simp

/-- C8: per-company failure handling is catch-and-continue. In Task B a
company whose enrichment throws is omitted while every other company is
still enriched and emitted in order; in Task C a company whose tender
task throws gets the zero tender record while every company (the list
length is preserved) is still processed. -/
theorem per_company_catch_and_continue (enrich : Company → Option EnrichedCompany)
    (pre post : List Company) (c : Company)
    (tender : EnrichedCompany → Option TenderData)
    (l : List EnrichedCompany) (e : EnrichedCompany) :
    (enrich c = none →
      taskB enrich (pre ++ c :: post) = taskB enrich pre ++ taskB enrich post) ∧
    taskB enrich (pre ++ c :: post) = (pre ++ c :: post).filterMap enrich ∧
    (tender e = none → e ∈ l →
      { e with tender_data := some zeroTenderData } ∈ taskC tender l) ∧
    (taskC tender l).length = l.length := by
  refine ⟨?_, taskB_eq_filterMap enrich (pre ++ c :: post), ?_, ?_⟩
  · intro h
    simp [taskB_eq_filterMap, List.filterMap_append, List.filterMap_cons, h]
  · intro ht hmem
    unfold taskC
    have hmap := List.mem_map_of_mem
      (f := fun c =>
        match tender c with
        | some td => { c with tender_data := some td }
        | none => { c with tender_data := some zeroTenderData }) hmem
    dsimp only at hmap
    rw [ht] at hmap
    exact hmap
  · simp [taskC]

/-- Witness for C8: with an enrichment that always throws, the single
seed company is omitted, and with a tender task that always throws, the
sample enriched company receives the zero tender record. -/
theorem per_company_catch_and_continue_witness :
    taskB (fun _ => none) ([] ++ omv :: [])
        = taskB (fun _ => none) [] ++ taskB (fun _ => none) [] ∧
    ({ sampleEnriched with tender_data := some zeroTenderData }
        ∈ taskC (fun _ => none) [sampleEnriched]) :=
  ⟨(per_company_catch_and_continue (fun _ => none) [] [] omv (fun _ => none)
      [sampleEnriched] sampleEnriched).1 rfl,
   (per_company_catch_and_continue (fun _ => none) [] [] omv (fun _ => none)
      [sampleEnriched] sampleEnriched).2.2.1 rfl (List.mem_singleton_self _)⟩

/-- C9: enrichCompanyContact preserves every input field (rank,
company_name, industry, hq_city, metric_type, metric_value) and leaves
website_url unchanged whenever the input website_url is truthy; it only
adds the emails, phones, address and imprint_url fields. The embedding is
pure, so the input record is never mutated. -/
theorem enrich_preserves_fields (env : Env) (c : Company) :
    (enrichCompanyContact env c).rank = c.rank ∧
    (enrichCompanyContact env c).company_name = c.company_name ∧
    (enrichCompanyContact env c).industry = c.industry ∧
    (enrichCompanyContact env c).hq_city = c.hq_city ∧
    (enrichCompanyContact env c).metric_type = c.metric_type ∧
    (enrichCompanyContact env c).metric_value = c.metric_value ∧
    (jsFalsyStr c.website_url = false →
      (enrichCompanyContact env c).website_url = c.website_url) := by
  by_cases h1 : jsFalsyStr c.website_url
  · by_cases h2 : jsFalsyStr (some (resolveWebsite c.company_name)) <;>
      simp [enrichCompanyContact, h1, h2]
  · by_cases h2 : jsFalsyStr c.website_url <;>
      simp [enrichCompanyContact, h1, h2]

/-- Witness for C9: on the first seed company (whose website_url is
truthy) the enrichment keeps the rank and the website URL. -/
theorem enrich_preserves_fields_witness :
    (enrichCompanyContact envNone omv).rank = omv.rank ∧
    (enrichCompanyContact envNone omv).website_url = omv.website_url :=
  ⟨(enrich_preserves_fields envNone omv).1,
   (enrich_preserves_fields envNone omv).2.2.2.2.2.2 (by decide)⟩

/-- C10: the computed company records do not depend on extract_emails,
extract_phones or tender_lookback_months: two inputs that agree on every
other field produce the same records, because main never reads the first
two and scrapeTenderData ignores its lookback argument. -/
theorem records_independent_of_unread_inputs (env : Env) (i₁ i₂ : Input)
    (h1 : i₁.ranking_strategy = i₂.ranking_strategy)
    (h2 : i₁.top_n = i₂.top_n)
    (h3 : i₁.include_tenders = i₂.include_tenders)
    (_h4 : i₁.max_concurrent_requests = i₂.max_concurrent_requests) :
    mainRecords env i₁ = mainRecords env i₂ := by
  simp [mainRecords, h1, h2, h3, scrapeTenderData]

/-- Witness for C10: the two sample inputs differ exactly in
tender_lookback_months, extract_emails and extract_phones, and produce
the same records. -/
theorem records_independent_witness :
    mainRecords envNone inputA = mainRecords envNone inputB :=
  records_independent_of_unread_inputs envNone inputA inputB rfl rfl rfl rfl

/-- An internal queue transition never raises the running count above
the concurrency bound. -/
lemma qInternal_preserves_bound (conc : Nat) (s s' : QState)
    (h : QInternal conc s s') (hs : s.running ≤ conc) : s'.running ≤ conc := by
  cases h with
  | start r p hr => exact hr
  | finish r p => exact Nat.le_of_succ_le hs

/-- Every state traversed by an execution that starts within the
concurrency bound stays within it. -/
lemma execT_states_bounded (conc : Nat) (s : QState) (ops : List SchedOp)
    (sts : List QState) (final : QState) (hexec : ExecT conc s ops sts final) :
    s.running ≤ conc → ∀ t ∈ sts, t.running ≤ conc := by
  induction hexec with
  | done s =>
      intro hs t ht
      rw [List.mem_singleton] at ht
      subst ht
      exact hs
  | internal s s' ops sts final hint hrec ih =>
      intro hs t ht
      rcases List.mem_cons.mp ht with rfl | ht2
      · exact hs
      · exact ih (qInternal_preserves_bound conc s s' hint hs) t ht2
  | enq r p ops sts final hrec ih =>
      intro hs t ht
      rcases List.mem_cons.mp ht with rfl | ht2
      · exact hs
      · exact ih hs t ht2
  | idle ops sts final hrec ih =>
      intro hs t ht
      rcases List.mem_cons.mp ht with rfl | ht2
      · exact Nat.zero_le conc
      · exact ih (Nat.zero_le conc) t ht2

/-- An execution whose next operation is awaitIdle passes through the
idle state: onIdle completes only once the queue has drained. -/
lemma execT_awaitIdle_reaches_idle (conc : Nat) :
    ∀ (s : QState) (allops : List SchedOp) (sts : List QState) (final : QState),
      ExecT conc s allops sts final →
      ∀ ops : List SchedOp, allops = SchedOp.awaitIdle :: ops →
        (⟨0, 0⟩ : QState) ∈ sts := by
  intro s allops sts final h
  induction h with
  | done s => intro ops hops; simp at hops
  | internal s s' ops2 sts final hint hrec ih =>
      intro ops hops
      exact List.mem_cons_of_mem _ (ih ops hops)
  | enq r p ops2 sts final hrec ih =>
      intro ops hops
      simp at hops
  | idle ops2 sts final hrec ih =>
      intro ops hops
      exact List.mem_cons_self _ _

/-- C7: every per-company task of Task B and Task C goes through the one
queue of concurrency max_concurrent_requests — the issued operations are
one enqueue per company, an onIdle barrier, then (when tenders are
enabled) one enqueue per enriched company and a final onIdle — so along
any execution of that schedule at most max_concurrent_requests tasks run
at any moment, and each onIdle completes only in the drained queue
state, so a pass finishes before the next begins. -/
theorem bounded_concurrency (mcr : Nat) (it : Bool)
    (companies : List Company) (enriched : List EnrichedCompany)
    (sts : List QState) (final : QState)
    (h : ExecT mcr ⟨0, 0⟩ (mainSchedule it companies enriched) sts final) :
    (∀ t ∈ sts, t.running ≤ mcr) ∧
    mainSchedule it companies enriched
      = companies.map (fun _ => SchedOp.enqueueTask) ++ [SchedOp.awaitIdle]
        ++ (if it then
              enriched.map (fun _ => SchedOp.enqueueTask) ++ [SchedOp.awaitIdle]
            else []) ∧
    (∀ (s₀ : QState) (ops : List SchedOp) (sts₀ : List QState) (f₀ : QState),
      ExecT mcr s₀ (SchedOp.awaitIdle :: ops) sts₀ f₀ →
        (⟨0, 0⟩ : QState) ∈ sts₀) :=
  ⟨execT_states_bounded mcr ⟨0, 0⟩ (mainSchedule it companies enriched) sts final h
      (Nat.zero_le mcr),
   rfl,
   fun s₀ ops sts₀ f₀ h₀ =>
     execT_awaitIdle_reaches_idle mcr s₀ (SchedOp.awaitIdle :: ops) sts₀ f₀ h₀ ops rfl⟩

/-- A concrete execution of the main schedule for one company with the
tender pass disabled and concurrency one: enqueue, start, finish, then
the idle barrier. -/
def sampleExec : ExecT 1 ⟨0, 0⟩ (mainSchedule false [omv] [])
    [⟨0, 0⟩, ⟨0, 1⟩, ⟨1, 0⟩, ⟨0, 0⟩, ⟨0, 0⟩] ⟨0, 0⟩ :=
  ExecT.enq 0 0 [SchedOp.awaitIdle] [⟨0, 1⟩, ⟨1, 0⟩, ⟨0, 0⟩, ⟨0, 0⟩] ⟨0, 0⟩
    (ExecT.internal ⟨0, 1⟩ ⟨1, 0⟩ [SchedOp.awaitIdle] [⟨1, 0⟩, ⟨0, 0⟩, ⟨0, 0⟩] ⟨0, 0⟩
      (QInternal.start 0 0 Nat.zero_lt_one)
      (ExecT.internal ⟨1, 0⟩ ⟨0, 0⟩ [SchedOp.awaitIdle] [⟨0, 0⟩, ⟨0, 0⟩] ⟨0, 0⟩
        (QInternal.finish 0 0)
        (ExecT.idle [] [⟨0, 0⟩] ⟨0, 0⟩ (ExecT.done ⟨0, 0⟩))))

/-- Witness for C7: along the concrete sample execution the state with a
task running stays within the concurrency bound one. -/
theorem bounded_concurrency_witness : (⟨1, 0⟩ : QState).running ≤ 1 :=
  (bounded_concurrency 1 false [omv] []
      [⟨0, 0⟩, ⟨0, 1⟩, ⟨1, 0⟩, ⟨0, 0⟩, ⟨0, 0⟩] ⟨0, 0⟩ sampleExec).1 ⟨1, 0⟩
    (by simp)

end ScrapingAgent
